import Mathlib

/-!
# Verification of the `animation` repository (src/src/index.ts)

A shallow embedding of the TypeScript source into Lean 4 and proofs about it.

Conventions of the embedding:
* JS `number` values that this code manipulates are modelled as rationals
  (`ℚ`); the code only ever adds, divides and compares them, so the
  rational model captures the control flow exactly (float rounding aside).
* JS `undefined`/missing values are modelled with `Option`.
* The sparse listener array (`delete arr[i]` leaves a hole, `arr[i]` on a
  hole yields `undefined`) is modelled as `List (Option κ)` where `κ` is an
  abstract type of listener identities; a hole is `none`.
* `Array.prototype.forEach` is modelled faithfully to ECMA-262: the length
  is captured once when the pass begins, and at every index the presence of
  the element is checked on the *live* array, so callbacks that mutate the
  registry mid-pass are observed exactly as in JS.
* Exceptions (`throw new Error(...)`) are modelled with `Except String`.
-/

-- The Batteries rational-number operations are `@[irreducible]`, which
-- blocks kernel evaluation of the model on concrete inputs; for this file
-- they are restored to the default transparency so that concrete runs of
-- the iterator can be settled by `decide`.
attribute [local semireducible] Rat.add Rat.sub Rat.mul Rat.inv

/-! ## Color parser (`extractColorAsRgb`) -/

/-- JS numbers as produced by this code: an integer or `NaN`
(`parseInt` can return `NaN` in the hex branch). -/
inductive JsNum where
  | nan : JsNum
  | int : ℤ → JsNum
deriving DecidableEq, Repr

/-- The `IRgbColor` record of the source: channels `r`, `g`, `b` and an
optional alpha channel `a`. -/
structure IRgbColor where
  r : JsNum
  g : JsNum
  b : JsNum
  a : Option JsNum := none
deriving DecidableEq, Repr

/-- JS `\s` character class (approximated by Unicode whitespace; the inputs
relevant here only use the ASCII space). -/
def isJsWhitespace (c : Char) : Bool := c.isWhitespace

/-- Consume a literal character, as the regex literals `r`, `g`, `b`, `(`,
`,`, `)` do. -/
def expectChar (c : Char) : List Char → Option (List Char)
  | x :: xs => if x = c then some xs else none
  | [] => none

/-- The regex fragment `\s?`: optionally consume one whitespace character.
In the two patterns of the source every `\s?` is followed by a
non-whitespace literal, so the greedy commit is exact. -/
def skipOptWs : List Char → List Char
  | x :: xs => if isJsWhitespace x then xs else x :: xs
  | [] => []

/-- Greedily take up to `n` leading decimal digits. -/
def takeDigitsUpTo : ℕ → List Char → List Char × List Char
  | 0, l => ([], l)
  | _ + 1, [] => ([], [])
  | n + 1, c :: cs =>
    if c.isDigit then
      let p := takeDigitsUpTo n cs
      (c :: p.1, p.2)
    else ([], c :: cs)

/-- Decimal value of a digit string, as JS `parseInt` computes it on the
all-digit capture groups `[0-9]{1,3}` of the source's regexes. -/
def decValue (ds : List Char) : ℕ :=
  ds.foldl (fun acc c => acc * 10 + (c.toNat - 48)) 0

/-- The regex fragment `([0-9]{1,3})`: one to three digits, greedily.  In
the source's patterns the fragment is always followed by `\s?` and then a
non-digit literal, so greedy matching with no backtracking is exact. -/
def component (l : List Char) : Option (ℕ × List Char) :=
  let p := takeDigitsUpTo 3 l
  if p.1.isEmpty then none else some (decValue p.1, p.2)

/-- Attempt the source's first regex
`rgb\s?\(([0-9]{1,3})\s?,\s?([0-9]{1,3})\s?,\s?([0-9]{1,3}),\s?([0-9]{1,3})\s?\)`
anchored at the head of `l`.  Note: the literal prefix is `rgb` (not
`rgba`), and there is no `\s?` between the third component and the third
comma, exactly as in the source. -/
def tryRgbaAt (l : List Char) : Option IRgbColor := do
  let l ← expectChar 'r' l
  let l ← expectChar 'g' l
  let l ← expectChar 'b' l
  let l := skipOptWs l
  let l ← expectChar '(' l
  let (v1, l) ← component l
  let l := skipOptWs l
  let l ← expectChar ',' l
  let l := skipOptWs l
  let (v2, l) ← component l
  let l := skipOptWs l
  let l ← expectChar ',' l
  let l := skipOptWs l
  let (v3, l) ← component l
  let l ← expectChar ',' l
  let l := skipOptWs l
  let (v4, l) ← component l
  let l := skipOptWs l
  let _ ← expectChar ')' l
  pure { r := .int v1, g := .int v2, b := .int v3, a := some (.int v4) }

/-- Attempt the source's second regex
`rgb\s?\(([0-9]{1,3})\s?,\s?([0-9]{1,3})\s?,\s?([0-9]{1,3})\s?\)`
anchored at the head of `l`. -/
def tryRgbAt (l : List Char) : Option IRgbColor := do
  let l ← expectChar 'r' l
  let l ← expectChar 'g' l
  let l ← expectChar 'b' l
  let l := skipOptWs l
  let l ← expectChar '(' l
  let (v1, l) ← component l
  let l := skipOptWs l
  let l ← expectChar ',' l
  let l := skipOptWs l
  let (v2, l) ← component l
  let l := skipOptWs l
  let l ← expectChar ',' l
  let l := skipOptWs l
  let (v3, l) ← component l
  let l := skipOptWs l
  let _ ← expectChar ')' l
  pure { r := .int v1, g := .int v2, b := .int v3, a := none }

/-- Leftmost-match search, as `String.prototype.replace` with a non-global
regex performs: try the pattern at every start position, first success
wins. -/
def findMatch {α : Type} (p : List Char → Option α) : List Char → Option α
  | [] => p []
  | c :: cs =>
    match p (c :: cs) with
    | some v => some v
    | none => findMatch p cs

/-- A lowercase hex digit `[a-f0-9]`. -/
def isLowerHexDigit (c : Char) : Bool := c.isDigit || ('a' ≤ c && c ≤ 'f')

/-- The anchored test `formattedColor.match(/^#[a-f0-9]{6}$/)`. -/
def hexFullMatch : List Char → Bool
  | '#' :: rest => rest.length = 6 && rest.all isLowerHexDigit
  | _ => false

/-- A hex digit of either case, as JS `parseInt(s, 16)` accepts. -/
def isHexDigitAny (c : Char) : Bool :=
  c.isDigit || ('a' ≤ c && c ≤ 'f') || ('A' ≤ c && c ≤ 'F')

/-- Value of a single hex digit of either case. -/
def hexDigitVal (c : Char) : ℕ :=
  if c.isDigit then c.toNat - 48
  else if 'a' ≤ c && c ≤ 'f' then c.toNat - 87
  else c.toNat - 55

/-- JS `parseInt(s, 16)`: skip leading whitespace, allow an optional sign,
read the maximal hex-digit prefix; `NaN` when that prefix is empty.  (The
`0x` prefix form is unreachable from the call site: the segments come from
a string whose trimmed lowercase form matched `^#[a-f0-9]{6}$`, which
excludes `x`.) -/
def jsParseIntHex (l : List Char) : JsNum :=
  let l1 := l.dropWhile isJsWhitespace
  let sl : Bool × List Char :=
    match l1 with
    | '-' :: rest => (true, rest)
    | '+' :: rest => (false, rest)
    | _ => (false, l1)
  let ds := sl.2.takeWhile isHexDigitAny
  if ds.isEmpty then .nan
  else
    .int ((if sl.1 then -1 else 1) *
      (ds.foldl (fun acc c => acc * 16 + hexDigitVal c) 0 : ℕ))

/-- `trim()`: strip whitespace from both ends. -/
def trimChars (l : List Char) : List Char :=
  ((l.dropWhile isJsWhitespace).reverse.dropWhile isJsWhitespace).reverse

/-- The message of the `Error` thrown when no format matches. -/
def colorFormatErrorMessage : String :=
  "Format not recognized (must be rgb, rgba, hex)"

/-- The source's `extractColorAsRgb`: lowercase and trim the input, attempt
the four-component pattern, then the three-component pattern, then the
anchored 6-digit hex test; the hex branch reads its two-character segments
from the *original* (untrimmed, case-preserved) string via
`color.substring`, exactly as the source does. -/
def extractColorAsRgb (color : String) : Except String IRgbColor :=
  let formattedColor : List Char := trimChars (color.toList.map Char.toLower)
  match findMatch tryRgbaAt formattedColor with
  | some rgba => .ok rgba
  | none =>
    match findMatch tryRgbAt formattedColor with
    | some rgb => .ok rgb
    | none =>
      if hexFullMatch formattedColor then
        let orig := color.toList
        .ok { r := jsParseIntHex ((orig.drop 1).take 2),
              g := jsParseIntHex ((orig.drop 3).take 2),
              b := jsParseIntHex ((orig.drop 5).take 2),
              a := none }
      else .error colorFormatErrorMessage

/-! ## The listener registry

The source stores listeners in a JS array `listeners`, uses
`delete listeners[i]` to unsubscribe (leaving a hole, not compacting), the
check `!listeners[i]` to find a free slot, `push` to append, and
`Array.prototype.forEach` to notify.  `κ` is an abstract type of listener
identities. -/

/-- `listeners[k]` on the sparse array: `none` both for a hole and for an
out-of-range index (JS `undefined` in either case). -/
def slotAt {κ : Type} : List (Option κ) → ℕ → Option κ
  | [], _ => none
  | s :: _, 0 => s
  | _ :: rest, k + 1 => slotAt rest k

/-- Writing `listeners[k] = v` for `k` in range (the only in-range writes
the source performs), and `delete listeners[k]` as `v := none`; out of
range it is a no-op, as `delete` on a missing index is. -/
def setSlot {κ : Type} : List (Option κ) → ℕ → Option κ → List (Option κ)
  | [], _, _ => []
  | _ :: rest, 0, v => v :: rest
  | s :: rest, k + 1, v => s :: setSlot rest k v

/-- The subscribe loop `for(let i...) if(!this.listeners[i])`: index of the
lowest falsy (empty) slot, if any. -/
def findEmptySlot {κ : Type} : List (Option κ) → Option ℕ
  | [] => none
  | none :: _ => some 0
  | some _ :: rest => (findEmptySlot rest).map (· + 1)

/-- `subscribe(callback)`: fill the lowest empty slot, else push a new one.
Returns the new registry and the slot index captured by the returned
unsubscribe closure. -/
def subscribe {κ : Type} (c : κ) (reg : List (Option κ)) :
    List (Option κ) × ℕ :=
  match findEmptySlot reg with
  | some i => (setSlot reg i (some c), i)
  | none => (reg ++ [some c], reg.length)

/-- The unsubscribe closure for slot `i`: `delete this.listeners[i]`. -/
def unsubscribe {κ : Type} (i : ℕ) (reg : List (Option κ)) :
    List (Option κ) :=
  setSlot reg i none

/-- Registry operations a listener callback may perform re-entrantly while
being notified: subscribing a new listener or invoking an unsubscribe
closure for some slot. -/
inductive RegOp (κ : Type) where
  | subscribeOp : κ → RegOp κ
  | unsubscribeOp : ℕ → RegOp κ
deriving DecidableEq, Repr

/-- Apply one re-entrant registry operation. -/
def applyOp {κ : Type} : RegOp κ → List (Option κ) → List (Option κ)
  | .subscribeOp c, reg => (subscribe c reg).1
  | .unsubscribeOp i, reg => unsubscribe i reg

/-- Apply the operations a callback performs, in order. -/
def applyOps {κ : Type} (ops : List (RegOp κ)) (reg : List (Option κ)) :
    List (Option κ) :=
  ops.foldl (fun r op => applyOp op r) reg

/-- One step of `listeners.forEach(...)` from index `k`, with `n` indices
of the captured range left to visit.  Per ECMA-262, presence at index `k`
is checked on the live array, so mutations by earlier callbacks in the same
pass are observed; `beh c` is the list of registry operations listener `c`
performs when invoked.  Returns the final registry and the invocation log
in order. -/
def notifyAux {κ : Type} (beh : κ → List (RegOp κ)) :
    ℕ → ℕ → List (Option κ) → List (Option κ) × List κ
  | 0, _, reg => (reg, [])
  | n + 1, k, reg =>
    match slotAt reg k with
    | none => notifyAux beh n (k + 1) reg
    | some c =>
      let reg1 := applyOps (beh c) reg
      let p := notifyAux beh n (k + 1) reg1
      (p.1, c :: p.2)

/-- The whole notification pass
`this.listeners.forEach((listener) => { if(listener) listener.callback(nextState) })`:
the range is the length captured when the pass begins. -/
def notify {κ : Type} (beh : κ → List (RegOp κ)) (reg : List (Option κ)) :
    List (Option κ) × List κ :=
  notifyAux beh reg.length 0 reg

/-! ## The animation iterator -/

/-- `IAnimationIteratorFuncResult`: `{styles: {[index: string]: string},
progress: number}`. -/
structure FuncResult where
  styles : List (String × String)
  progress : ℚ
deriving DecidableEq, Repr

/-- The constants of the source. -/
def DEFAULT_STEP_INTERVAL : ℚ := 1 / 180

/-- Default `rate`. -/
def DEFAULT_FRAME_RATE : ℚ := 60

/-- Default `progress`. -/
def DEFAULT_PROGRESS : ℚ := 0

/-- Default `time`. -/
def DEFAULT_TIME : ℚ := 0

/-- Default `lastTick`. -/
def DEFAULT_LAST_TICK : ℚ := 0

/-- `DEFAULT_FUNC`: `(initialState, time) => ({styles: {}, progress: time})`,
polymorphic in the (untyped in the source) initial state. -/
def DEFAULT_FUNC {σ : Type} : σ → ℚ → FuncResult :=
  fun _ time => { styles := [], progress := time }

/-- `conditionalDefault`: the source returns the default when the value is
`undefined` or `null`, modelled by `Option`. -/
def conditionalDefault {T : Type} (value : Option T) (defaultValue : T) : T :=
  match value with
  | none => defaultValue
  | some v => v

/-- `IAnimationIteratorArgs` (the unused `time?` field included for
completeness). -/
structure AnimationIteratorArgs (σ : Type) where
  rate : Option ℚ := none
  interval : Option ℚ := none
  time : Option ℚ := none
  func : Option (σ → ℚ → FuncResult) := none
  function : Option (σ → ℚ → FuncResult) := none

/-- The fields of class `AnimationIterator`.  `σ` is the type of the
untyped `initialState` the update function receives; `κ` the type of
listener identities. -/
structure AnimationIterator (σ κ : Type) where
  interval : ℚ
  rate : ℚ
  progress : ℚ
  time : ℚ
  lastTick : ℚ
  func : σ → ℚ → FuncResult
  listeners : List (Option κ)

/-- The `reset` closure built in the constructor: reload `interval`,
`rate` and `func` from the constructor's `args` (with `args.func ||
args.function`), zero the run state, leave `listeners` untouched. -/
def AnimationIterator.reset {σ κ : Type} (args : AnimationIteratorArgs σ)
    (s : AnimationIterator σ κ) : AnimationIterator σ κ :=
  { s with
    interval := conditionalDefault args.interval DEFAULT_STEP_INTERVAL
    rate := conditionalDefault args.rate DEFAULT_FRAME_RATE
    func := conditionalDefault (args.func.orElse fun _ => args.function)
      DEFAULT_FUNC
    progress := DEFAULT_PROGRESS
    time := DEFAULT_TIME
    lastTick := DEFAULT_LAST_TICK }

/-- `resetListeners()`: `this.listeners = []`. -/
def AnimationIterator.resetListeners {σ κ : Type}
    (s : AnimationIterator σ κ) : AnimationIterator σ κ :=
  { s with listeners := [] }

/-- `resetAll()`: `this.reset(); this.resetListeners()`. -/
def AnimationIterator.resetAll {σ κ : Type} (args : AnimationIteratorArgs σ)
    (s : AnimationIterator σ κ) : AnimationIterator σ κ :=
  (s.reset args).resetListeners

/-- `new AnimationIterator(args)`: field initializers (the declared
defaults) followed by the `this.reset()` call the constructor makes. -/
def AnimationIterator.construct {σ κ : Type}
    (args : AnimationIteratorArgs σ) : AnimationIterator σ κ :=
  AnimationIterator.reset args
    { interval := DEFAULT_STEP_INTERVAL
      rate := DEFAULT_FRAME_RATE
      progress := DEFAULT_PROGRESS
      time := DEFAULT_TIME
      lastTick := DEFAULT_LAST_TICK
      func := DEFAULT_FUNC
      listeners := [] }

/-- `if(nextState.progress >= 1.0) { nextState.progress = 1.0 }`. -/
def clampProgress (r : FuncResult) : FuncResult :=
  if r.progress ≥ 1 then { r with progress := 1 } else r

/-- Observable outcome of one invocation of `next`:
* `rejected init`: not enough wall time elapsed; a frame callback was
  re-requested with `init` and nothing else happened (in particular the
  update function was not invoked and nobody was notified);
* `continued result invoked init`: accepted tick that notified `invoked`
  (in order) with `result` and re-requested a frame with `init`;
* `completed result invoked`: accepted tick that notified and then stopped
  (progress reached 1), requesting no further frame. -/
inductive TickOutcome (σ κ : Type) where
  | rejected : σ → TickOutcome σ κ
  | continued : FuncResult → List κ → σ → TickOutcome σ κ
  | completed : FuncResult → List κ → TickOutcome σ κ
deriving DecidableEq, Repr

/-- `next(initialState)` invoked at wall-clock time `now`
(`Date.now()`), with re-entrant listener behaviour `beh`.  Mirrors the
source statement by statement: the pacing gate, `lastTick` update, `time
+= interval`, the update function call, the clamp, the `progress` store,
the `forEach` notification pass, and the stop-or-reschedule decision. -/
def AnimationIterator.next {σ κ : Type} (beh : κ → List (RegOp κ))
    (init : σ) (now : ℚ) (s : AnimationIterator σ κ) :
    AnimationIterator σ κ × TickOutcome σ κ :=
  if now - s.lastTick ≥ 1000 / s.rate then
    if (clampProgress (s.func init (s.time + s.interval))).progress ≥ 1 then
      ({ s with
          lastTick := now
          time := s.time + s.interval
          progress := (clampProgress (s.func init (s.time + s.interval))).progress
          listeners := (notify beh s.listeners).1 },
        .completed (clampProgress (s.func init (s.time + s.interval)))
          (notify beh s.listeners).2)
    else
      ({ s with
          lastTick := now
          time := s.time + s.interval
          progress := (clampProgress (s.func init (s.time + s.interval))).progress
          listeners := (notify beh s.listeners).1 },
        .continued (clampProgress (s.func init (s.time + s.interval)))
          (notify beh s.listeners).2 init)
  else (s, .rejected init)

/-- The notified state an outcome carries, if the tick was accepted. -/
def notifiedResult {σ κ : Type} : TickOutcome σ κ → Option FuncResult
  | .rejected _ => none
  | .continued r _ _ => some r
  | .completed r _ => some r

/-- The invocation log an outcome carries, if the tick was accepted. -/
def invokedListeners {σ κ : Type} : TickOutcome σ κ → Option (List κ)
  | .rejected _ => none
  | .continued _ l _ => some l
  | .completed _ l => some l

/-- Whether the tick was rejected by the pacing gate. -/
def TickOutcome.isRejected {σ κ : Type} : TickOutcome σ κ → Bool
  | .rejected _ => true
  | _ => false

/-- Drive the self-rescheduling loop: `clocks` is the list of `Date.now()`
readings at the successive frame-callback invocations the host delivers.
Returns the final iterator, the list of notified states of the accepted
ticks in order, and whether the loop stopped because progress reached 1
(rather than running out of scheduled frames). -/
def runAux {σ κ : Type} (beh : κ → List (RegOp κ)) (init : σ) :
    List ℚ → AnimationIterator σ κ →
    AnimationIterator σ κ × List FuncResult × Bool
  | [], s => (s, [], false)
  | now :: rest, s =>
    match s.next beh init now with
    | (s1, .rejected _) => runAux beh init rest s1
    | (s1, .completed r _) => (s1, [r], true)
    | (s1, .continued r _ _) =>
      let out := runAux beh init rest s1
      (out.1, r :: out.2.1, out.2.2)

/-- The one-shot listener `start` subscribes: on each notified state it
checks `state.progress === 1.0`; at the first match it unsubscribes itself
and resolves the promise with that state (so it sees no later state).  The
returned list is the list of `resolve` calls, in order. -/
def oneShotResolutions : List FuncResult → List FuncResult
  | [] => []
  | r :: rest => if r.progress = 1 then [r] else oneShotResolutions rest

/-- `start(initialState)` as observed through its promise: the first frame
is scheduled and the one-shot listener subscribed before any tick runs
(frame callbacks are asynchronous, the promise executor is synchronous),
so the listener observes every state notified during the run. -/
def startResolutions {σ κ : Type} (beh : κ → List (RegOp κ)) (init : σ)
    (clocks : List ℚ) (s : AnimationIterator σ κ) : List FuncResult :=
  oneShotResolutions (runAux beh init clocks s).2.1

/-! ## Shared lemmas -/

/-- Listener behaviour performing no registry operations at all. -/
def noBehavior {κ : Type} : κ → List (RegOp κ) := fun _ => []

/-- The clamp on the raw progress value. -/
theorem clampProgress_progress (r : FuncResult) :
    (clampProgress r).progress = if r.progress ≥ 1 then 1 else r.progress := by
  unfold clampProgress
  by_cases h : r.progress ≥ 1
  · rw [if_pos h, if_pos h]
  · rw [if_neg h, if_neg h]

/-- A clamped progress value never exceeds 1. -/
theorem clampProgress_le_one (r : FuncResult) : (clampProgress r).progress ≤ 1 := by
  rw [clampProgress_progress]
  by_cases h : r.progress ≥ 1
  · rw [if_pos h]
  · rw [if_neg h]
    exact le_of_not_le h

/-- A clamped progress value that still reports completion is exactly 1. -/
theorem clampProgress_eq_one (r : FuncResult)
    (h : (clampProgress r).progress ≥ 1) : (clampProgress r).progress = 1 :=
  le_antisymm (clampProgress_le_one r) h

/-- The clamp is monotone in the raw value. -/
theorem clampProgress_mono (r1 r2 : FuncResult)
    (h : r1.progress ≤ r2.progress) :
    (clampProgress r1).progress ≤ (clampProgress r2).progress := by
  rw [clampProgress_progress, clampProgress_progress]
  by_cases h1 : r1.progress ≥ 1
  · rw [if_pos h1, if_pos (le_trans h1 h)]
  · rw [if_neg h1]
    by_cases h2 : r2.progress ≥ 1
    · rw [if_pos h2]
      exact le_of_not_le h1
    · rw [if_neg h2]
      exact h

/-- A paced-out invocation of `next` leaves everything as it was and only
re-requests a frame with the same initial state. -/
theorem next_rejected {σ κ : Type} (beh : κ → List (RegOp κ)) (init : σ)
    (now : ℚ) (s : AnimationIterator σ κ)
    (h : now - s.lastTick < 1000 / s.rate) :
    s.next beh init now = (s, TickOutcome.rejected init) := by
  unfold AnimationIterator.next
  rw [if_neg (not_le.mpr h)]

/-- The state every accepted tick moves to. -/
def acceptedState {σ κ : Type} (beh : κ → List (RegOp κ)) (init : σ)
    (now : ℚ) (s : AnimationIterator σ κ) : AnimationIterator σ κ :=
  { s with
    lastTick := now
    time := s.time + s.interval
    progress := (clampProgress (s.func init (s.time + s.interval))).progress
    listeners := (notify beh s.listeners).1 }

/-- An accepted tick whose clamped progress reaches 1 completes. -/
theorem next_completed {σ κ : Type} (beh : κ → List (RegOp κ)) (init : σ)
    (now : ℚ) (s : AnimationIterator σ κ)
    (h : now - s.lastTick ≥ 1000 / s.rate)
    (hp : (clampProgress (s.func init (s.time + s.interval))).progress ≥ 1) :
    s.next beh init now = (acceptedState beh init now s,
      TickOutcome.completed (clampProgress (s.func init (s.time + s.interval)))
        (notify beh s.listeners).2) := by
  unfold AnimationIterator.next
  rw [if_pos h, if_pos hp]
  rfl

/-- An accepted tick whose clamped progress stays below 1 continues. -/
theorem next_continued {σ κ : Type} (beh : κ → List (RegOp κ)) (init : σ)
    (now : ℚ) (s : AnimationIterator σ κ)
    (h : now - s.lastTick ≥ 1000 / s.rate)
    (hp : ¬ (clampProgress (s.func init (s.time + s.interval))).progress ≥ 1) :
    s.next beh init now = (acceptedState beh init now s,
      TickOutcome.continued (clampProgress (s.func init (s.time + s.interval)))
        (notify beh s.listeners).2 init) := by
  unfold AnimationIterator.next
  rw [if_pos h, if_neg hp]
  rfl

/-- Every notified state of `next` is the clamped update-function result at
the advanced virtual time. -/
theorem notifiedResult_eq_clamp {σ κ : Type} (beh : κ → List (RegOp κ))
    (init : σ) (now : ℚ) (s : AnimationIterator σ κ) (r : FuncResult)
    (h : notifiedResult (s.next beh init now).2 = some r) :
    r = clampProgress (s.func init (s.time + s.interval)) := by
  by_cases hc : now - s.lastTick ≥ 1000 / s.rate
  · by_cases hp : (clampProgress (s.func init (s.time + s.interval))).progress ≥ 1
    · rw [next_completed beh init now s hc hp] at h
      exact (Option.some_injective _ h).symm
    · rw [next_continued beh init now s hc hp] at h
      exact (Option.some_injective _ h).symm
  · rw [next_rejected beh init now s (not_le.mp hc)] at h
    exact absurd h (Option.noConfusion)

/-! ## Registry lemmas -/

/-- `setSlot` never changes the array length. -/
theorem setSlot_length {κ : Type} (reg : List (Option κ)) (k : ℕ)
    (v : Option κ) : (setSlot reg k v).length = reg.length := by
  induction reg generalizing k with
  | nil => rfl
  | cons s rest ih =>
    cases k with
    | zero => rfl
    | succ k => exact congrArg Nat.succ (ih k)

/-- Reading back an in-range write. -/
theorem slotAt_setSlot_self {κ : Type} (reg : List (Option κ)) (k : ℕ)
    (v : Option κ) (h : k < reg.length) : slotAt (setSlot reg k v) k = v := by
  induction reg generalizing k with
  | nil => exact absurd h (Nat.not_lt_zero k)
  | cons s rest ih =>
    cases k with
    | zero => rfl
    | succ k => exact ih k (Nat.lt_of_succ_lt_succ h)

/-- A write to slot `i` leaves every other slot unchanged. -/
theorem slotAt_setSlot_ne {κ : Type} (reg : List (Option κ)) (i k : ℕ)
    (v : Option κ) (h : k ≠ i) : slotAt (setSlot reg i v) k = slotAt reg k := by
  induction reg generalizing i k with
  | nil => rfl
  | cons s rest ih =>
    cases i with
    | zero =>
      cases k with
      | zero => exact absurd rfl h
      | succ k => rfl
    | succ i =>
      cases k with
      | zero => rfl
      | succ k => exact ih i k fun e => h (congrArg Nat.succ e)

/-- Writing the same slot twice keeps only the second write. -/
theorem setSlot_setSlot {κ : Type} (reg : List (Option κ)) (k : ℕ)
    (v w : Option κ) : setSlot (setSlot reg k v) k w = setSlot reg k w := by
  induction reg generalizing k with
  | nil => rfl
  | cons s rest ih =>
    cases k with
    | zero => rfl
    | succ k => exact congrArg (s :: ·) (ih k)

/-- An out-of-range read yields `undefined`. -/
theorem slotAt_eq_none_of_le {κ : Type} (reg : List (Option κ)) (k : ℕ)
    (h : reg.length ≤ k) : slotAt reg k = none := by
  induction reg generalizing k with
  | nil => rfl
  | cons s rest ih =>
    cases k with
    | zero => exact absurd h (Nat.not_succ_le_zero rest.length)
    | succ k => exact ih k (Nat.le_of_succ_le_succ h)

/-- An occupied read is in range. -/
theorem lt_length_of_slotAt_eq_some {κ : Type} (reg : List (Option κ))
    (k : ℕ) (c : κ) (h : slotAt reg k = some c) : k < reg.length := by
  by_contra hk
  rw [slotAt_eq_none_of_le reg k (Nat.le_of_not_lt hk)] at h
  exact Option.noConfusion h

/-- `findEmptySlot` returns the lowest empty index: it is in range, empty,
and every lower slot is occupied. -/
theorem findEmptySlot_spec {κ : Type} (reg : List (Option κ)) (i : ℕ)
    (h : findEmptySlot reg = some i) :
    i < reg.length ∧ slotAt reg i = none ∧
      ∀ j, j < i → slotAt reg j ≠ none := by
  induction reg generalizing i with
  | nil => exact Option.noConfusion h
  | cons s rest ih =>
    cases s with
    | none =>
      have : i = 0 := (Option.some_injective _ h).symm
      subst this
      exact ⟨Nat.succ_pos _, rfl, fun j hj => absurd hj (Nat.not_lt_zero j)⟩
    | some c =>
      unfold findEmptySlot at h
      cases he : findEmptySlot rest with
      | none => rw [he] at h; exact Option.noConfusion h
      | some i0 =>
        rw [he] at h
        have hi : i = i0 + 1 := (Option.some_injective _ h).symm
        subst hi
        obtain ⟨h1, h2, h3⟩ := ih i0 he
        refine ⟨Nat.succ_lt_succ h1, h2, fun j hj => ?_⟩
        cases j with
        | zero => exact fun e => Option.noConfusion e
        | succ j => exact h3 j (Nat.lt_of_succ_lt_succ hj)

/-- When `findEmptySlot` fails, every in-range slot is occupied. -/
theorem findEmptySlot_none {κ : Type} (reg : List (Option κ))
    (h : findEmptySlot reg = none) :
    ∀ j, j < reg.length → slotAt reg j ≠ none := by
  induction reg with
  | nil => exact fun j hj => absurd hj (Nat.not_lt_zero j)
  | cons s rest ih =>
    cases s with
    | none => exact Option.noConfusion h
    | some c =>
      unfold findEmptySlot at h
      cases he : findEmptySlot rest with
      | some i0 => rw [he] at h; exact Option.noConfusion h
      | none =>
        intro j hj
        cases j with
        | zero => exact fun e => Option.noConfusion e
        | succ j => exact ih he j (Nat.lt_of_succ_lt_succ hj)

/-- A registry with every slot occupied has no empty slot. -/
theorem findEmptySlot_map_some {κ : Type} (l : List κ) :
    findEmptySlot (l.map some) = none := by
  induction l with
  | nil => rfl
  | cons c rest ih =>
    show (findEmptySlot (rest.map some)).map (· + 1) = none
    rw [ih]
    rfl

/-- Decomposing an in-range suffix of the registry. -/
theorem drop_eq_slotAt_cons {κ : Type} (reg : List (Option κ)) (k : ℕ)
    (h : k < reg.length) : reg.drop k = slotAt reg k :: reg.drop (k + 1) := by
  induction reg generalizing k with
  | nil => exact absurd h (Nat.not_lt_zero k)
  | cons s rest ih =>
    cases k with
    | zero => rfl
    | succ k => exact ih k (Nat.lt_of_succ_lt_succ h)

/-- `slotAt` through `List.drop`. -/
theorem slotAt_drop {κ : Type} (reg : List (Option κ)) (k j : ℕ) :
    slotAt (reg.drop k) j = slotAt reg (k + j) := by
  induction reg generalizing k with
  | nil => cases k <;> rfl
  | cons s rest ih =>
    cases k with
    | zero => rw [Nat.zero_add]; rfl
    | succ k =>
      show slotAt (rest.drop k) j = slotAt (s :: rest) (k + 1 + j)
      rw [ih k]
      have he : k + 1 + j = (k + j) + 1 := by omega
      rw [he]
      rfl

/-- Callbacks that perform no registry operations leave the registry alone,
and the pass invokes exactly the occupied slots of the visited range. -/
theorem notifyAux_noBehavior {κ : Type} (n : ℕ) :
    ∀ (k : ℕ) (reg : List (Option κ)), k + n = reg.length →
      notifyAux noBehavior n k reg = (reg, ((reg.drop k).take n).filterMap id) := by
  induction n with
  | zero =>
    intro k reg h
    rfl
  | succ n ih =>
    intro k reg h
    have hk : k < reg.length := by omega
    have hd := drop_eq_slotAt_cons reg k hk
    cases hs : slotAt reg k with
    | none =>
      have step : notifyAux noBehavior (n + 1) k reg
          = notifyAux noBehavior n (k + 1) reg := by
        conv_lhs => rw [notifyAux]
        rw [hs]
      rw [step, ih (k + 1) reg (by omega), hd, hs]
      rfl
    | some c =>
      have step : notifyAux noBehavior (n + 1) k reg
          = ((notifyAux noBehavior n (k + 1) reg).1,
            c :: (notifyAux noBehavior n (k + 1) reg).2) := by
        conv_lhs => rw [notifyAux]
        rw [hs]
        rfl
      rw [step, ih (k + 1) reg (by omega), hd, hs]
      rfl

/-- The full no-mutation pass: final registry unchanged, invocation log is
the occupied slots in index order. -/
theorem notify_noBehavior {κ : Type} (reg : List (Option κ)) :
    notify noBehavior reg = (reg, reg.filterMap id) := by
  unfold notify
  rw [notifyAux_noBehavior reg.length 0 reg (by omega)]
  rw [List.drop_zero, List.take_length]

/-- Subscribing a batch of listeners one after the other. -/
def subscribeMany {κ : Type} (cs : List κ) (reg : List (Option κ)) :
    List (Option κ) :=
  cs.foldl (fun r c => (subscribe c r).1) reg

/-- Subscribing into a fully occupied registry appends in order. -/
theorem subscribeMany_map_some {κ : Type} (cs : List κ) :
    ∀ prior : List κ,
      subscribeMany cs (prior.map some) = (prior ++ cs).map some := by
  induction cs with
  | nil => intro prior; simp [subscribeMany]
  | cons c cs ih =>
    intro prior
    show subscribeMany cs (subscribe c (prior.map some)).1 = _
    have h1 : (subscribe c (prior.map some)).1 = (prior ++ [c]).map some := by
      unfold subscribe
      rw [findEmptySlot_map_some]
      simp
    rw [h1, ih (prior ++ [c])]
    simp

/-- Clearing slot `k` of a fully occupied registry leaves, in order,
exactly the other listeners. -/
theorem filterMap_setSlot_map_some {κ : Type} (cs : List κ) :
    ∀ k : ℕ, k < cs.length →
      (setSlot (cs.map some) k none).filterMap id = cs.eraseIdx k := by
  induction cs with
  | nil => intro k hk; exact absurd hk (Nat.not_lt_zero k)
  | cons c cs ih =>
    intro k hk
    cases k with
    | zero => simp [setSlot, List.eraseIdx]
    | succ k =>
      show (some c :: setSlot (cs.map some) k none).filterMap id = _
      rw [List.filterMap_cons]
      show c :: (setSlot (cs.map some) k none).filterMap id = _
      rw [ih k (Nat.lt_of_succ_lt_succ hk)]
      rfl

/-- `delete`/`listeners[i] = v` past the end of the array is a no-op (for
`delete`; the source never assigns past the end). -/
theorem setSlot_oob {κ : Type} (reg : List (Option κ)) (i : ℕ)
    (v : Option κ) (h : reg.length ≤ i) : setSlot reg i v = reg := by
  induction reg generalizing i with
  | nil => rfl
  | cons s rest ih =>
    cases i with
    | zero => exact absurd h (Nat.not_succ_le_zero rest.length)
    | succ i => exact congrArg (s :: ·) (ih i (Nat.le_of_succ_le_succ h))

/-- One step of the `forEach` pass over an empty slot: skipped, nothing
invoked. -/
theorem notifyAux_succ_none {κ : Type} (beh : κ → List (RegOp κ))
    (n k : ℕ) (reg : List (Option κ)) (hs : slotAt reg k = none) :
    notifyAux beh (n + 1) k reg = notifyAux beh n (k + 1) reg := by
  conv_lhs => rw [notifyAux]
  rw [hs]

/-- One step of the `forEach` pass over an occupied slot: the listener is
invoked (its registry operations applied) and the pass moves on over the
mutated registry. -/
theorem notifyAux_succ_some {κ : Type} (beh : κ → List (RegOp κ))
    (n k : ℕ) (reg : List (Option κ)) (c : κ) (hs : slotAt reg k = some c) :
    notifyAux beh (n + 1) k reg =
      ((notifyAux beh n (k + 1) (applyOps (beh c) reg)).1,
        c :: (notifyAux beh n (k + 1) (applyOps (beh c) reg)).2) := by
  conv_lhs => rw [notifyAux]
  rw [hs]

/-- Listener behaviours that only invoke unsubscribe closures. -/
def onlyUnsubscribes {κ : Type} (beh : κ → List (RegOp κ)) : Prop :=
  ∀ c op, op ∈ beh c → ∃ i, op = RegOp.unsubscribeOp i

/-- Clearing a slot weakens the registry pointwise: every slot keeps its
value or becomes empty, and no index shifts. -/
theorem slotAt_unsubscribe {κ : Type} (reg : List (Option κ)) (i j : ℕ) :
    slotAt (unsubscribe i reg) j = slotAt reg j ∨
      slotAt (unsubscribe i reg) j = none := by
  by_cases hji : j = i
  · subst hji
    by_cases hlt : j < reg.length
    · exact Or.inr (slotAt_setSlot_self reg j none hlt)
    · rw [unsubscribe, setSlot_oob reg j none (Nat.le_of_not_lt hlt)]
      exact Or.inl rfl
  · exact Or.inl (slotAt_setSlot_ne reg i j none hji)

/-- Unsubscribe-only operation lists preserve the length and weaken the
slots pointwise. -/
theorem applyOps_unsub {κ : Type} (ops : List (RegOp κ)) :
    ∀ reg : List (Option κ),
      (∀ op ∈ ops, ∃ i, op = RegOp.unsubscribeOp i) →
      (applyOps ops reg).length = reg.length ∧
      ∀ j, slotAt (applyOps ops reg) j = slotAt reg j ∨
        slotAt (applyOps ops reg) j = none := by
  induction ops with
  | nil => exact fun reg _ => ⟨rfl, fun j => Or.inl rfl⟩
  | cons op ops ih =>
    intro reg h
    obtain ⟨i, hi⟩ := h op (List.mem_cons_self op ops)
    subst hi
    have hrest := ih (unsubscribe i reg) fun op hop =>
      h op (List.mem_cons_of_mem _ hop)
    have hstep : applyOps (RegOp.unsubscribeOp i :: ops) reg
        = applyOps ops (unsubscribe i reg) := rfl
    rw [hstep]
    refine ⟨hrest.1.trans (setSlot_length reg i none), fun j => ?_⟩
    cases hrest.2 j with
    | inr hnone => exact Or.inr hnone
    | inl heq =>
      rw [heq]
      exact slotAt_unsubscribe reg i j

/-- Unsubscribe-only operations that never target slot `k` leave slot `k`
alone. -/
theorem applyOps_unsub_other {κ : Type} (ops : List (RegOp κ)) :
    ∀ reg : List (Option κ), ∀ k : ℕ,
      (∀ op ∈ ops, ∃ i, op = RegOp.unsubscribeOp i ∧ i ≠ k) →
      slotAt (applyOps ops reg) k = slotAt reg k := by
  induction ops with
  | nil => exact fun reg k _ => rfl
  | cons op ops ih =>
    intro reg k h
    obtain ⟨i, hi, hik⟩ := h op (List.mem_cons_self op ops)
    subst hi
    have hstep : applyOps (RegOp.unsubscribeOp i :: ops) reg
        = applyOps ops (unsubscribe i reg) := rfl
    rw [hstep, ih (unsubscribe i reg) k
      (fun op hop => h op (List.mem_cons_of_mem _ hop))]
    exact slotAt_setSlot_ne reg i k none fun e => hik e.symm

/-- A pointwise-weakened registry of the same length contributes a sublist
of occupied listeners. -/
theorem filterMap_sublist_pointwise {κ : Type} :
    ∀ (l : List (Option κ)) (l1 : List (Option κ)),
      l1.length = l.length →
      (∀ j, slotAt l1 j = slotAt l j ∨ slotAt l1 j = none) →
      List.Sublist (l1.filterMap id) (l.filterMap id) := by
  intro l
  induction l with
  | nil =>
    intro l1 hlen _
    rw [List.length_nil, List.length_eq_zero] at hlen
    subst hlen
    exact List.nil_sublist _
  | cons x xs ih =>
    intro l1 hlen hpt
    cases l1 with
    | nil => exact absurd hlen.symm (Nat.succ_ne_zero xs.length)
    | cons y ys =>
      have htail := ih ys (Nat.succ_injective hlen) fun j => hpt (j + 1)
      have hhead := hpt 0
      rw [List.filterMap_cons, List.filterMap_cons]
      cases hhead with
      | inl heq =>
        have hyx : y = x := heq
        subst hyx
        cases y with
        | none => exact htail
        | some c => exact htail.cons₂ c
      | inr hnone =>
        have hy : y = none := hnone
        subst hy
        cases x with
        | none => exact htail
        | some c => exact htail.cons c

/-- Under unsubscribe-only callbacks the invocation log of a partial pass
is a sublist (same relative order) of the occupied slots of the unvisited
range at its start. -/
theorem notifyAux_unsub_sublist {κ : Type} (beh : κ → List (RegOp κ))
    (hbeh : onlyUnsubscribes beh) :
    ∀ (n k : ℕ) (reg : List (Option κ)),
      List.Sublist (notifyAux beh n k reg).2 ((reg.drop k).filterMap id) := by
  intro n
  induction n with
  | zero => intro k reg; exact List.nil_sublist _
  | succ n ih =>
    intro k reg
    cases hs : slotAt reg k with
    | none =>
      rw [notifyAux_succ_none beh n k reg hs]
      refine (ih (k + 1) reg).trans ?_
      have h1 : reg.drop (k + 1) = (reg.drop k).tail := by
        rw [← List.drop_one, List.drop_drop]
      rw [h1]
      exact (List.tail_sublist _).filterMap id
    | some c =>
      have hk : k < reg.length := lt_length_of_slotAt_eq_some reg k c hs
      rw [notifyAux_succ_some beh n k reg c hs]
      have hops := applyOps_unsub (beh c) reg (hbeh c)
      have hdrop : List.Sublist
          (((applyOps (beh c) reg).drop (k + 1)).filterMap id)
          ((reg.drop (k + 1)).filterMap id) := by
        apply filterMap_sublist_pointwise
        · rw [List.length_drop, List.length_drop, hops.1]
        · intro j
          rw [slotAt_drop, slotAt_drop]
          exact hops.2 (k + 1 + j)
      have h3 : (reg.drop k).filterMap id
          = c :: (reg.drop (k + 1)).filterMap id := by
        rw [drop_eq_slotAt_cons reg k hk, hs, List.filterMap_cons]
        rfl
      rw [h3]
      exact ((ih (k + 1) (applyOps (beh c) reg)).trans hdrop).cons₂ c

/-- Under unsubscribe-only callbacks the registry after a partial pass has
the same length, every slot keeping its value or emptied. -/
theorem notifyAux_unsub_final {κ : Type} (beh : κ → List (RegOp κ))
    (hbeh : onlyUnsubscribes beh) :
    ∀ (n k : ℕ) (reg : List (Option κ)),
      (notifyAux beh n k reg).1.length = reg.length ∧
      ∀ j, slotAt (notifyAux beh n k reg).1 j = slotAt reg j ∨
        slotAt (notifyAux beh n k reg).1 j = none := by
  intro n
  induction n with
  | zero => intro k reg; exact ⟨rfl, fun j => Or.inl rfl⟩
  | succ n ih =>
    intro k reg
    cases hs : slotAt reg k with
    | none =>
      rw [notifyAux_succ_none beh n k reg hs]
      exact ih (k + 1) reg
    | some c =>
      rw [notifyAux_succ_some beh n k reg c hs]
      have hops := applyOps_unsub (beh c) reg (hbeh c)
      have hrec := ih (k + 1) (applyOps (beh c) reg)
      refine ⟨hrec.1.trans hops.1, fun j => ?_⟩
      cases hrec.2 j with
      | inr hnone => exact Or.inr hnone
      | inl heq =>
        rw [heq]
        exact hops.2 j

/-- Under unsubscribe-only callbacks, a listener whose slot lies in the
unvisited range is still invoked when no listener occupying an earlier
slot of that range ever clears it: only callbacks invoked before the pass
reaches the slot can empty it first. -/
theorem notifyAux_unsub_mem_strong {κ : Type} (beh : κ → List (RegOp κ))
    (hbeh : onlyUnsubscribes beh) (k : ℕ) (c : κ) :
    ∀ (n j0 : ℕ) (reg : List (Option κ)), j0 ≤ k → k < j0 + n →
      slotAt reg k = some c →
      (∀ j c1, j0 ≤ j → j < k → slotAt reg j = some c1 →
        RegOp.unsubscribeOp k ∉ beh c1) →
      c ∈ (notifyAux beh n j0 reg).2 := by
  intro n
  induction n with
  | zero => intro j0 reg hjk hkn _ _; omega
  | succ n ih =>
    intro j0 reg hjk hkn hslot hearlier
    by_cases hjk2 : j0 = k
    · subst hjk2
      rw [notifyAux_succ_some beh n j0 reg c hslot]
      exact List.mem_cons_self c _
    · have hjlt : j0 < k := lt_of_le_of_ne hjk hjk2
      cases hs : slotAt reg j0 with
      | none =>
        rw [notifyAux_succ_none beh n j0 reg hs]
        exact ih (j0 + 1) reg (by omega) (by omega) hslot
          (fun j c1 hj1 hj2 hsl => hearlier j c1 (by omega) hj2 hsl)
      | some c1 =>
        rw [notifyAux_succ_some beh n j0 reg c1 hs]
        have hnotk : RegOp.unsubscribeOp k ∉ beh c1 :=
          hearlier j0 c1 (le_refl j0) hjlt hs
        have hpres : slotAt (applyOps (beh c1) reg) k = slotAt reg k := by
          apply applyOps_unsub_other
          intro op hop
          obtain ⟨i, hi⟩ := hbeh c1 op hop
          refine ⟨i, hi, fun hik => ?_⟩
          subst hik
          exact hnotk (hi ▸ hop)
        have hweak := applyOps_unsub (beh c1) reg (hbeh c1)
        refine List.mem_cons_of_mem c1
          (ih (j0 + 1) (applyOps (beh c1) reg) (by omega) (by omega)
            (hpres.trans hslot) ?_)
        intro j c2 hj1 hj2 hsl
        cases hweak.2 j with
        | inl heq => exact hearlier j c2 (by omega) hj2 (heq.symm.trans hsl)
        | inr hnone =>
          rw [hnone] at hsl
          exact absurd hsl Option.noConfusion

/-- Some element of the sparse array sits at some index. -/
theorem slotAt_of_mem {κ : Type} (x : Option κ) (reg : List (Option κ))
    (h : x ∈ reg) : ∃ i, slotAt reg i = x := by
  induction reg with
  | nil => exact absurd h (List.not_mem_nil x)
  | cons s rest ih =>
    cases List.mem_cons.mp h with
    | inl he => exact ⟨0, he.symm⟩
    | inr hm =>
      obtain ⟨i, hi⟩ := ih hm
      exact ⟨i + 1, hi⟩

/-- A listener occupying no slot at all when an unsubscribe-only pass
resumes is never invoked in its remainder. -/
theorem notifyAux_unsub_not_mem {κ : Type} (beh : κ → List (RegOp κ))
    (hbeh : onlyUnsubscribes beh) (c : κ) (n j0 : ℕ)
    (reg : List (Option κ)) (hno : ∀ i, slotAt reg i ≠ some c) :
    c ∉ (notifyAux beh n j0 reg).2 := by
  intro hmem
  have hsub := notifyAux_unsub_sublist beh hbeh n j0 reg
  obtain ⟨x, hx, hxc⟩ := List.mem_filterMap.mp (hsub.subset hmem)
  have hx2 : some c ∈ reg.drop j0 := by
    rw [← hxc]
    exact hx
  obtain ⟨i, hi⟩ := slotAt_of_mem (some c) reg
    ((List.drop_sublist j0 reg).subset hx2)
  exact hno i hi

/-- `delete this.listeners[i]` empties slot `i` (in range or not). -/
theorem slotAt_unsubscribe_self {κ : Type} (reg : List (Option κ)) (i : ℕ) :
    slotAt (unsubscribe i reg) i = none := by
  by_cases hr : i < reg.length
  · exact slotAt_setSlot_self reg i none hr
  · rw [unsubscribe, setSlot_oob reg i none (Nat.le_of_not_lt hr)]
    exact slotAt_eq_none_of_le reg i (Nat.le_of_not_lt hr)

/-- Unsubscribe-only operations never refill a slot. -/
theorem applyOps_unsub_none {κ : Type} (ops : List (RegOp κ))
    (reg : List (Option κ)) (k : ℕ)
    (h : ∀ op ∈ ops, ∃ i, op = RegOp.unsubscribeOp i)
    (hk : slotAt reg k = none) : slotAt (applyOps ops reg) k = none := by
  cases (applyOps_unsub ops reg h).2 k with
  | inl heq => exact heq.trans hk
  | inr hnone => exact hnone

/-- An operation list that unsubscribes slot `k` leaves slot `k` empty:
once cleared, unsubscribe-only operations never refill it. -/
theorem applyOps_unsub_clears {κ : Type} (ops : List (RegOp κ)) :
    ∀ (reg : List (Option κ)) (k : ℕ),
      (∀ op ∈ ops, ∃ i, op = RegOp.unsubscribeOp i) →
      RegOp.unsubscribeOp k ∈ ops →
      slotAt (applyOps ops reg) k = none := by
  induction ops with
  | nil =>
    intro reg k _ hmem
    exact absurd hmem (List.not_mem_nil _)
  | cons op ops ih =>
    intro reg k hall hmem
    obtain ⟨i, hi⟩ := hall op (List.mem_cons_self op ops)
    subst hi
    have hstep : applyOps (RegOp.unsubscribeOp i :: ops) reg
        = applyOps ops (unsubscribe i reg) := rfl
    rw [hstep]
    cases List.mem_cons.mp hmem with
    | inl heq =>
      injection heq with hki
      subst hki
      exact applyOps_unsub_none ops (unsubscribe k reg) k
        (fun op hop => hall op (List.mem_cons_of_mem _ hop))
        (slotAt_unsubscribe_self reg k)
    | inr hmem2 =>
      exact ih (unsubscribe i reg) k
        (fun op hop => hall op (List.mem_cons_of_mem _ hop)) hmem2

/-- The central skip property: a listener at slot `k`, occupying no other
slot, whose slot is cleared by the callback of a listener at an earlier
slot `j` (itself cleared by no one, so certain to run before the pass
reaches `k`), is skipped and never invoked during the pass. -/
theorem notifyAux_unsub_skipped {κ : Type} (beh : κ → List (RegOp κ))
    (hbeh : onlyUnsubscribes beh) (j k : ℕ) (c1 c : κ) (hjk : j < k)
    (hclear : RegOp.unsubscribeOp k ∈ beh c1)
    (hprotect : ∀ c2, RegOp.unsubscribeOp j ∉ beh c2) :
    ∀ (n j0 : ℕ) (reg : List (Option κ)), j0 ≤ j → j < j0 + n →
      slotAt reg j = some c1 →
      (∀ i, slotAt reg i = some c → i = k) →
      c ∉ (notifyAux beh n j0 reg).2 := by
  intro n
  induction n with
  | zero => intro j0 reg h1 h2 _ _; omega
  | succ n ih =>
    intro j0 reg hj0j hjn hslotj huniq
    by_cases hj0 : j0 = j
    · subst hj0
      rw [notifyAux_succ_some beh n j0 reg c1 hslotj]
      have hcc1 : c ≠ c1 := by
        intro e
        subst e
        have hk0 := huniq j0 hslotj
        omega
      have hnowhere : ∀ i, slotAt (applyOps (beh c1) reg) i ≠ some c := by
        intro i hi
        have hweak := applyOps_unsub (beh c1) reg (hbeh c1)
        cases hweak.2 i with
        | inl heq =>
          have hik := huniq i (heq.symm.trans hi)
          subst hik
          rw [applyOps_unsub_clears (beh c1) reg i (hbeh c1) hclear] at hi
          exact Option.noConfusion hi
        | inr hnone =>
          rw [hnone] at hi
          exact Option.noConfusion hi
      intro hmem
      cases List.mem_cons.mp hmem with
      | inl he => exact hcc1 he
      | inr hm =>
        exact notifyAux_unsub_not_mem beh hbeh c n (j0 + 1)
          (applyOps (beh c1) reg) hnowhere hm
    · have hlt : j0 < j := lt_of_le_of_ne hj0j hj0
      cases hs : slotAt reg j0 with
      | none =>
        rw [notifyAux_succ_none beh n j0 reg hs]
        exact ih (j0 + 1) reg (by omega) (by omega) hslotj huniq
      | some c2 =>
        rw [notifyAux_succ_some beh n j0 reg c2 hs]
        have hcc2 : c ≠ c2 := by
          intro e
          subst e
          have hk0 := huniq j0 hs
          omega
        have hpresj : slotAt (applyOps (beh c2) reg) j = slotAt reg j := by
          apply applyOps_unsub_other
          intro op hop
          obtain ⟨i, hi⟩ := hbeh c2 op hop
          refine ⟨i, hi, fun hij => ?_⟩
          subst hij
          exact hprotect c2 (hi ▸ hop)
        have huniq1 : ∀ i, slotAt (applyOps (beh c2) reg) i = some c →
            i = k := by
          intro i hi
          have hweak := applyOps_unsub (beh c2) reg (hbeh c2)
          cases hweak.2 i with
          | inl heq => exact huniq i (heq.symm.trans hi)
          | inr hnone =>
            rw [hnone] at hi
            exact absurd hi Option.noConfusion
        intro hmem
        cases List.mem_cons.mp hmem with
        | inl he => exact hcc2 he
        | inr hm =>
          exact ih (j0 + 1) (applyOps (beh c2) reg) (by omega) (by omega)
            (hpresj.trans hslotj) huniq1 hm

/-- Listener behaviours that only subscribe new listeners. -/
def onlySubscribes {κ : Type} (beh : κ → List (RegOp κ)) : Prop :=
  ∀ c op, op ∈ beh c → ∃ c1, op = RegOp.subscribeOp c1

/-- An in-range slot of a hole-free registry is occupied. -/
theorem slotAt_ne_none_of_full {κ : Type} (reg : List (Option κ))
    (hfull : ∀ s ∈ reg, s ≠ none) (k : ℕ) (hk : k < reg.length) :
    slotAt reg k ≠ none := by
  induction reg generalizing k with
  | nil => exact absurd hk (Nat.not_lt_zero k)
  | cons s rest ih =>
    cases k with
    | zero => exact hfull s (List.mem_cons_self s rest)
    | succ k =>
      exact ih (fun x hx => hfull x (List.mem_cons_of_mem s hx)) k
        (Nat.lt_of_succ_lt_succ hk)

/-- A hole-free registry has no empty slot to find. -/
theorem findEmptySlot_of_full {κ : Type} (reg : List (Option κ))
    (hfull : ∀ s ∈ reg, s ≠ none) : findEmptySlot reg = none := by
  induction reg with
  | nil => rfl
  | cons s rest ih =>
    cases hs : s with
    | none => exact absurd rfl (hs ▸ hfull s (List.mem_cons_self s rest))
    | some c =>
      show (findEmptySlot rest).map (· + 1) = none
      rw [ih fun x hx => hfull x (List.mem_cons_of_mem s hx)]
      rfl

/-- Subscribing to a hole-free registry appends. -/
theorem subscribe_of_full {κ : Type} (c : κ) (reg : List (Option κ))
    (hfull : ∀ s ∈ reg, s ≠ none) :
    subscribe c reg = (reg ++ [some c], reg.length) := by
  unfold subscribe
  rw [findEmptySlot_of_full reg hfull]

/-- Subscribe-only operations on a hole-free registry append a hole-free
extension. -/
theorem applyOps_subs_append {κ : Type} (ops : List (RegOp κ)) :
    ∀ reg : List (Option κ),
      (∀ op ∈ ops, ∃ c1, op = RegOp.subscribeOp c1) →
      (∀ s ∈ reg, s ≠ none) →
      ∃ ext, applyOps ops reg = reg ++ ext ∧
        ∀ s ∈ reg ++ ext, s ≠ none := by
  induction ops with
  | nil =>
    intro reg _ hfull
    exact ⟨[], (List.append_nil reg).symm,
      by rw [List.append_nil]; exact hfull⟩
  | cons op ops ih =>
    intro reg h hfull
    obtain ⟨c1, hc1⟩ := h op (List.mem_cons_self op ops)
    subst hc1
    have hstep : applyOps (RegOp.subscribeOp c1 :: ops) reg
        = applyOps ops (subscribe c1 reg).1 := rfl
    have happ : (subscribe c1 reg).1 = reg ++ [some c1] := by
      rw [subscribe_of_full c1 reg hfull]
    have hfull1 : ∀ s ∈ reg ++ [some c1], s ≠ none := by
      intro s hs
      cases List.mem_append.mp hs with
      | inl h1 => exact hfull s h1
      | inr h2 =>
        rw [List.mem_singleton.mp h2]
        exact fun e => Option.noConfusion e
    obtain ⟨ext1, he1, he2⟩ := ih (reg ++ [some c1])
      (fun op hop => h op (List.mem_cons_of_mem _ hop)) hfull1
    refine ⟨[some c1] ++ ext1, ?_, ?_⟩
    · rw [hstep, happ, he1, List.append_assoc]
    · rw [← List.append_assoc]
      exact he2

/-- Over a hole-free registry, a subscribe-only pass invokes exactly the
slots of its captured range, in index order: listeners appended during the
pass sit past that range and are never reached. -/
theorem notifyAux_subs_full {κ : Type} (beh : κ → List (RegOp κ))
    (hbeh : onlySubscribes beh) :
    ∀ (n k : ℕ) (reg : List (Option κ)),
      (∀ s ∈ reg, s ≠ none) → k + n ≤ reg.length →
      (notifyAux beh n k reg).2 = ((reg.drop k).take n).filterMap id := by
  intro n
  induction n with
  | zero => intro k reg _ _; rfl
  | succ n ih =>
    intro k reg hfull hkn
    have hk : k < reg.length := by omega
    cases hs : slotAt reg k with
    | none => exact absurd hs (slotAt_ne_none_of_full reg hfull k hk)
    | some c =>
      rw [notifyAux_succ_some beh n k reg c hs]
      obtain ⟨ext, hext, hfull1⟩ :=
        applyOps_subs_append (beh c) reg (hbeh c) hfull
      have hlen1 : k + 1 + n ≤ (applyOps (beh c) reg).length := by
        rw [hext, List.length_append]
        omega
      have hrec := ih (k + 1) (applyOps (beh c) reg) (hext ▸ hfull1) hlen1
      have hdrop : ((applyOps (beh c) reg).drop (k + 1)).take n
          = (reg.drop (k + 1)).take n := by
        rw [hext, List.drop_append_of_le_length (by omega),
          List.take_append_of_le_length (by rw [List.length_drop]; omega)]
      have hgoal : (reg.drop k).take (n + 1)
          = some c :: (reg.drop (k + 1)).take n := by
        rw [drop_eq_slotAt_cons reg k hk, hs]
        rfl
      show c :: (notifyAux beh n (k + 1) (applyOps (beh c) reg)).2 = _
      rw [hrec, hdrop, hgoal, List.filterMap_cons]
      rfl

/-- The full-pass version: over a hole-free registry with subscribe-only
callbacks, the invoked listeners are exactly the initial occupants in slot
order. -/
theorem notify_subs_full {κ : Type} (beh : κ → List (RegOp κ))
    (hbeh : onlySubscribes beh) (reg : List (Option κ))
    (hfull : ∀ s ∈ reg, s ≠ none) :
    (notify beh reg).2 = reg.filterMap id := by
  unfold notify
  rw [notifyAux_subs_full beh hbeh reg.length 0 reg hfull (by omega),
    List.drop_zero, List.take_length]

/-! ## Run lemmas -/

/-- A rejected frame leaves the run where it was. -/
theorem runAux_rejected {σ κ : Type} (beh : κ → List (RegOp κ)) (init : σ)
    (now : ℚ) (rest : List ℚ) (s : AnimationIterator σ κ)
    (h : now - s.lastTick < 1000 / s.rate) :
    runAux beh init (now :: rest) s = runAux beh init rest s := by
  rw [runAux, next_rejected beh init now s h]

/-- A completing frame ends the run with its notified state. -/
theorem runAux_completed {σ κ : Type} (beh : κ → List (RegOp κ)) (init : σ)
    (now : ℚ) (rest : List ℚ) (s : AnimationIterator σ κ)
    (h : now - s.lastTick ≥ 1000 / s.rate)
    (hp : (clampProgress (s.func init (s.time + s.interval))).progress ≥ 1) :
    runAux beh init (now :: rest) s = (acceptedState beh init now s,
      [clampProgress (s.func init (s.time + s.interval))], true) := by
  rw [runAux, next_completed beh init now s h hp]

/-- A continuing frame emits its notified state and the run goes on from
the advanced state. -/
theorem runAux_continued {σ κ : Type} (beh : κ → List (RegOp κ)) (init : σ)
    (now : ℚ) (rest : List ℚ) (s : AnimationIterator σ κ)
    (h : now - s.lastTick ≥ 1000 / s.rate)
    (hp : ¬ (clampProgress (s.func init (s.time + s.interval))).progress ≥ 1) :
    runAux beh init (now :: rest) s =
      ((runAux beh init rest (acceptedState beh init now s)).1,
        clampProgress (s.func init (s.time + s.interval))
          :: (runAux beh init rest (acceptedState beh init now s)).2.1,
        (runAux beh init rest (acceptedState beh init now s)).2.2) := by
  rw [runAux, next_continued beh init now s h hp]

/-- Monotone update functions with a nonnegative step yield monotone
notified progress along a run, with every notified progress at least the
clamped value of the first step from the current state. -/
theorem runAux_progress_mono {σ κ : Type} (beh : κ → List (RegOp κ))
    (init : σ) (f : σ → ℚ → FuncResult) (d : ℚ)
    (hmono : ∀ t1 t2, t1 ≤ t2 → (f init t1).progress ≤ (f init t2).progress)
    (hd : 0 ≤ d) :
    ∀ (clocks : List ℚ) (s : AnimationIterator σ κ),
      s.func = f → s.interval = d →
      List.Chain' (· ≤ ·)
        ((runAux beh init clocks s).2.1.map FuncResult.progress) ∧
      ∀ r ∈ (runAux beh init clocks s).2.1,
        (clampProgress (f init (s.time + d))).progress ≤ r.progress := by
  intro clocks
  induction clocks with
  | nil =>
    intro s hf hdint
    exact ⟨List.chain'_nil, fun r hr => absurd hr (List.not_mem_nil r)⟩
  | cons now rest ih =>
    intro s hf hdint
    by_cases hc : now - s.lastTick ≥ 1000 / s.rate
    · by_cases hp :
          (clampProgress (s.func init (s.time + s.interval))).progress ≥ 1
      · rw [runAux_completed beh init now rest s hc hp]
        refine ⟨List.chain'_singleton _, fun r hr => ?_⟩
        rw [List.mem_singleton.mp hr, hf, hdint]
      · rw [runAux_continued beh init now rest s hc hp]
        have hfunc1 : (acceptedState beh init now s).func = f := hf
        have hint1 : (acceptedState beh init now s).interval = d := hdint
        have ih1 := ih (acceptedState beh init now s) hfunc1 hint1
        have htime1 : (acceptedState beh init now s).time = s.time + d := by
          show s.time + s.interval = s.time + d
          rw [hdint]
        have hstep : (clampProgress (f init (s.time + d))).progress ≤
            (clampProgress (f init (s.time + d + d))).progress :=
          clampProgress_mono _ _ (hmono _ _ (le_add_of_nonneg_right hd))
        have hbound : ∀ r ∈
            (runAux beh init rest (acceptedState beh init now s)).2.1,
            (clampProgress (f init (s.time + d))).progress ≤ r.progress := by
          intro r hr
          refine hstep.trans ?_
          have hb := ih1.2 r hr
          rw [htime1] at hb
          exact hb
        have hr0 : (clampProgress (s.func init (s.time + s.interval))).progress
            = (clampProgress (f init (s.time + d))).progress := by
          rw [hf, hdint]
        constructor
        · rw [List.map_cons, List.chain'_cons']
          refine ⟨fun y hy => ?_, ih1.1⟩
          cases hrest1 :
              (runAux beh init rest (acceptedState beh init now s)).2.1 with
          | nil =>
            rw [hrest1] at hy
            exact absurd hy (by simp)
          | cons r1 t =>
            rw [hrest1] at hy
            have hy2 : y = r1.progress := by
              have hy1 : r1.progress = y := by simpa using hy
              exact hy1.symm
            rw [hy2, hr0]
            exact hbound r1 (by rw [hrest1]; exact List.mem_cons_self r1 t)
        · intro r hr
          cases List.mem_cons.mp hr with
          | inl heq =>
            rw [heq, hf, hdint]
          | inr hmem => exact hbound r hmem
    · rw [runAux_rejected beh init now rest s (not_le.mp hc)]
      exact ih s hf hdint

/-- A run that stops because progress reached 1 has a last notified state;
that state's progress is exactly 1, every earlier notified progress is
below 1, and the one-shot listener resolves exactly once, with it. -/
theorem runAux_completes {σ κ : Type} (beh : κ → List (RegOp κ)) (init : σ) :
    ∀ (clocks : List ℚ) (s : AnimationIterator σ κ),
      (runAux beh init clocks s).2.2 = true →
      ∃ l, ((runAux beh init clocks s).2.1).getLast? = some l ∧
        oneShotResolutions (runAux beh init clocks s).2.1 = [l] ∧
        l.progress = 1 := by
  intro clocks
  induction clocks with
  | nil =>
    intro s h
    exact Bool.noConfusion h
  | cons now rest ih =>
    intro s h
    by_cases hc : now - s.lastTick ≥ 1000 / s.rate
    · by_cases hp :
          (clampProgress (s.func init (s.time + s.interval))).progress ≥ 1
      · rw [runAux_completed beh init now rest s hc hp]
        refine ⟨clampProgress (s.func init (s.time + s.interval)), rfl, ?_,
          clampProgress_eq_one _ hp⟩
        show oneShotResolutions [clampProgress (s.func init (s.time + s.interval))] = _
        unfold oneShotResolutions
        rw [if_pos (clampProgress_eq_one _ hp)]
      · rw [runAux_continued beh init now rest s hc hp] at h ⊢
        obtain ⟨l, hl1, hl2, hl3⟩ := ih (acceptedState beh init now s) h
        refine ⟨l, ?_, ?_, hl3⟩
        · cases hrest1 :
              (runAux beh init rest (acceptedState beh init now s)).2.1 with
          | nil =>
            rw [hrest1] at hl1
            exact absurd hl1 (by simp)
          | cons r1 t =>
            rw [hrest1] at hl1
            show List.getLast? (clampProgress (s.func init (s.time + s.interval))
              :: r1 :: t) = some l
            rw [List.getLast?_cons_cons, hl1]
        · have hne : (clampProgress (s.func init (s.time + s.interval))).progress
              ≠ 1 := by
            intro e
            exact hp (ge_of_eq e)
          show oneShotResolutions (clampProgress (s.func init (s.time + s.interval))
            :: (runAux beh init rest (acceptedState beh init now s)).2.1) = [l]
          unfold oneShotResolutions
          rw [if_neg hne]
          exact hl2
    · rw [runAux_rejected beh init now rest s (not_le.mp hc)] at h ⊢
      exact ih s h

/-- The observable facts shared by both accepted-tick outcomes. -/
theorem next_accepted_facts {σ κ : Type} (beh : κ → List (RegOp κ))
    (init : σ) (now : ℚ) (s : AnimationIterator σ κ)
    (h : now - s.lastTick ≥ 1000 / s.rate) :
    (s.next beh init now).2.isRejected = false ∧
    (s.next beh init now).1.time = s.time + s.interval ∧
    notifiedResult (s.next beh init now).2 =
      some (clampProgress (s.func init (s.time + s.interval))) ∧
    invokedListeners (s.next beh init now).2 =
      some (notify beh s.listeners).2 := by
  by_cases hp :
      (clampProgress (s.func init (s.time + s.interval))).progress ≥ 1
  · rw [next_completed beh init now s h hp]
    exact ⟨rfl, rfl, rfl, rfl⟩
  · rw [next_continued beh init now s h hp]
    exact ⟨rfl, rfl, rfl, rfl⟩

/-! ## Concrete fixtures -/

/-- A concrete iterator: the defaults except a `1/2` step, so that the
default update function (progress = elapsed time) completes on the second
accepted tick. -/
def sampleIterator : AnimationIterator Unit ℕ :=
  { interval := 1/2
    rate := 60
    progress := 0
    time := 0
    lastTick := 0
    func := DEFAULT_FUNC
    listeners := [] }

/-- A listener behaviour where listener 0 unsubscribes slot 1 mid-pass. -/
def behUnsub : ℕ → List (RegOp ℕ)
  | 0 => [RegOp.unsubscribeOp 1]
  | _ + 1 => []

/-- `behUnsub` only unsubscribes. -/
theorem behUnsub_onlyUnsubscribes : onlyUnsubscribes behUnsub := by
  intro c op hop
  cases c with
  | zero => exact ⟨1, List.mem_singleton.mp hop⟩
  | succ c => exact absurd hop (List.not_mem_nil op)

/-- A listener behaviour where listener 0 subscribes listener 1 mid-pass. -/
def behSubHole : ℕ → List (RegOp ℕ)
  | 0 => [RegOp.subscribeOp 1]
  | _ + 1 => []

/-- A listener behaviour where listener 0 subscribes listener 7 mid-pass. -/
def behSubFull : ℕ → List (RegOp ℕ)
  | 0 => [RegOp.subscribeOp 7]
  | _ + 1 => []

/-- `behSubFull` only subscribes. -/
theorem behSubFull_onlySubscribes : onlySubscribes behSubFull := by
  intro c op hop
  cases c with
  | zero => exact ⟨7, List.mem_singleton.mp hop⟩
  | succ c => exact absurd hop (List.not_mem_nil op)

/-- The empty configuration object `{}`. -/
def emptyArgs : AnimationIteratorArgs Unit := {}

/-! ## The claims -/

/-- C1: for every update function that reaches progress ≥ 1.0 within the
frames the host delivers (the run's completion flag is set), the promise
returned by `start(initialState)` fulfills exactly once — the one-shot
listener's resolution list is a single state — and its fulfillment value
is the final notified state, whose progress is exactly 1.0. -/
theorem C1_start_resolves_once {σ κ : Type} (beh : κ → List (RegOp κ))
    (init : σ) (clocks : List ℚ) (s : AnimationIterator σ κ)
    (h : (runAux beh init clocks s).2.2 = true) :
    ∃ l, ((runAux beh init clocks s).2.1).getLast? = some l ∧
      startResolutions beh init clocks s = [l] ∧ l.progress = 1 :=
  runAux_completes beh init clocks s h

/-- Witness for C1: the sample run completes on its second frame and the
promise resolves exactly once with the progress-1 state. -/
theorem C1_start_resolves_once_witness :
    (runAux noBehavior () [100, 200] sampleIterator).2.2 = true ∧
    ∃ l, ((runAux noBehavior () [100, 200] sampleIterator).2.1).getLast?
        = some l ∧
      startResolutions noBehavior () [100, 200] sampleIterator = [l] ∧
      l.progress = 1 :=
  ⟨by decide,
    C1_start_resolves_once noBehavior () [100, 200] sampleIterator (by decide)⟩

/-- C2: a tick arriving before `1000/rate` ms have elapsed since
`lastTickTimestamp` is rejected: the whole state (elapsedTime, progress,
lastTickTimestamp, listeners) is unchanged, no result is produced and no
listener notified (the outcome carries neither), and exactly one frame
callback is re-requested with the same `initialState`. -/
theorem C2_early_tick_rejected {σ κ : Type} (beh : κ → List (RegOp κ))
    (init : σ) (now : ℚ) (s : AnimationIterator σ κ)
    (h : now - s.lastTick < 1000 / s.rate) :
    s.next beh init now = (s, TickOutcome.rejected init) :=
  next_rejected beh init now s h

/-- Witness for C2: one wall-clock millisecond after construction is too
early for rate 60. -/
theorem C2_early_tick_rejected_witness :
    (1 : ℚ) - sampleIterator.lastTick < 1000 / sampleIterator.rate ∧
    sampleIterator.next noBehavior () 1
      = (sampleIterator, TickOutcome.rejected ()) :=
  ⟨by decide, C2_early_tick_rejected noBehavior () 1 sampleIterator (by decide)⟩

/-- C3: every state an accepted tick passes to listeners has progress
≤ 1.0: the update result is clamped before anyone is notified. -/
theorem C3_notified_progress_clamped {σ κ : Type} (beh : κ → List (RegOp κ))
    (init : σ) (now : ℚ) (s : AnimationIterator σ κ) (r : FuncResult)
    (h : notifiedResult (s.next beh init now).2 = some r) : r.progress ≤ 1 := by
  rw [notifiedResult_eq_clamp beh init now s r h]
  exact clampProgress_le_one _

/-- Witness for C3: the sample iterator's first accepted tick notifies
progress 1/2 ≤ 1. -/
theorem C3_notified_progress_clamped_witness :
    notifiedResult ((sampleIterator.next noBehavior () 100).2)
      = some { styles := [], progress := 1/2 } ∧
    ({ styles := [], progress := 1/2 } : FuncResult).progress ≤ 1 :=
  ⟨by decide, C3_notified_progress_clamped noBehavior () 100 sampleIterator
    { styles := [], progress := 1/2 } (by decide)⟩

/-- C4: `subscribe` stores the callback in the lowest-indexed empty slot
(appending only when none is empty); the unsubscribe closure clears
exactly that slot and is idempotent; and after subscribing the listeners
`cs` into an empty registry and unsubscribing the `k`-th, exactly
`cs.length − 1` listeners remain and the next accepted tick's pass
notifies them in original relative slot order, skipping slot `k`. -/
theorem C4_subscribe_registry {κ : Type} (c : κ) (cs : List κ) (k : ℕ)
    (hk : k < cs.length) :
    (∀ (reg : List (Option κ)) (i : ℕ), findEmptySlot reg = some i →
      subscribe c reg = (setSlot reg i (some c), i) ∧
      slotAt reg i = none ∧ (∀ j, j < i → slotAt reg j ≠ none) ∧
      slotAt (setSlot reg i (some c)) i = some c) ∧
    (∀ reg : List (Option κ), findEmptySlot reg = none →
      subscribe c reg = (reg ++ [some c], reg.length) ∧
      ∀ j, j < reg.length → slotAt reg j ≠ none) ∧
    (∀ (reg : List (Option κ)) (i j : ℕ),
      slotAt (unsubscribe i reg) i = none ∧
      (j ≠ i → slotAt (unsubscribe i reg) j = slotAt reg j) ∧
      unsubscribe i (unsubscribe i reg) = unsubscribe i reg) ∧
    ((unsubscribe k (subscribeMany cs [])).filterMap id).length
      = cs.length - 1 ∧
    (notify noBehavior (unsubscribe k (subscribeMany cs []))).2
      = cs.eraseIdx k := by
  have hmany : subscribeMany cs ([] : List (Option κ)) = cs.map some := by
    have h := subscribeMany_map_some cs []
    simpa using h
  have herase : (unsubscribe k (subscribeMany cs [])).filterMap id
      = cs.eraseIdx k := by
    rw [hmany]
    exact filterMap_setSlot_map_some cs k hk
  refine ⟨?_, ?_, ?_, ?_, ?_⟩
  · intro reg i h
    obtain ⟨h1, h2, h3⟩ := findEmptySlot_spec reg i h
    refine ⟨?_, h2, h3, slotAt_setSlot_self reg i (some c) h1⟩
    unfold subscribe
    rw [h]
  · intro reg h
    refine ⟨?_, findEmptySlot_none reg h⟩
    unfold subscribe
    rw [h]
  · intro reg i j
    refine ⟨?_, fun hji => slotAt_setSlot_ne reg i j none hji, setSlot_setSlot reg i none none⟩
    by_cases hi : i < reg.length
    · exact slotAt_setSlot_self reg i none hi
    · rw [unsubscribe, setSlot_oob reg i none (Nat.le_of_not_lt hi)]
      exact slotAt_eq_none_of_le reg i (Nat.le_of_not_lt hi)
  · rw [herase]
    have hlen := List.length_eraseIdx_add_one (l := cs) (i := k) hk
    omega
  · rw [notify_noBehavior, herase]

/-- Witness for C4: three listeners, unsubscribe the middle one, the pass
notifies the other two in order. -/
theorem C4_subscribe_registry_witness :
    1 < ([5, 6, 7] : List ℕ).length ∧
    ((∀ (reg : List (Option ℕ)) (i : ℕ), findEmptySlot reg = some i →
      subscribe 9 reg = (setSlot reg i (some 9), i) ∧
      slotAt reg i = none ∧ (∀ j, j < i → slotAt reg j ≠ none) ∧
      slotAt (setSlot reg i (some 9)) i = some 9) ∧
    (∀ reg : List (Option ℕ), findEmptySlot reg = none →
      subscribe 9 reg = (reg ++ [some 9], reg.length) ∧
      ∀ j, j < reg.length → slotAt reg j ≠ none) ∧
    (∀ (reg : List (Option ℕ)) (i j : ℕ),
      slotAt (unsubscribe i reg) i = none ∧
      (j ≠ i → slotAt (unsubscribe i reg) j = slotAt reg j) ∧
      unsubscribe i (unsubscribe i reg) = unsubscribe i reg) ∧
    ((unsubscribe 1 (subscribeMany [5, 6, 7] [])).filterMap id).length
      = ([5, 6, 7] : List ℕ).length - 1 ∧
    (notify noBehavior (unsubscribe 1 (subscribeMany [5, 6, 7] []))).2
      = ([5, 6, 7] : List ℕ).eraseIdx 1) :=
  ⟨by decide, C4_subscribe_registry 9 [5, 6, 7] 1 (by decide)⟩

/-- C5: when callbacks invoked during a notification pass only
unsubscribe (their own slot or any other), the in-progress iteration is
not perturbed.  Conjuncts, in order: (1) no slot index shifts — the
registry keeps its length with every slot either unchanged or emptied;
(2) the invocation log is a sublist, in the same relative order, of the
initially occupied slots, so a slot empty when the pass begins
contributes nothing; (3) the callbacks of the remaining occupied slots
are still invoked: a slot occupied at pass start whose unsubscribe
closure no listener at an earlier slot invokes — only callbacks run
before the pass reaches it can empty it first — is invoked; (4) a slot
that is cleared earlier in the same pass is skipped and never invoked:
when the listener at an earlier slot `j` (itself cleared by no one, so
certain to run first) clears slot `k`, the occupant of slot `k`
(occupying no other slot) is not in the log. -/
theorem C5_reentrant_unsubscribe_safe {κ : Type} (beh : κ → List (RegOp κ))
    (reg : List (Option κ)) (hbeh : onlyUnsubscribes beh) :
    ((notify beh reg).1.length = reg.length ∧
      ∀ j, slotAt (notify beh reg).1 j = slotAt reg j ∨
        slotAt (notify beh reg).1 j = none) ∧
    List.Sublist (notify beh reg).2 (reg.filterMap id) ∧
    (∀ k c, slotAt reg k = some c →
      (∀ j c1, j < k → slotAt reg j = some c1 →
        RegOp.unsubscribeOp k ∉ beh c1) →
      c ∈ (notify beh reg).2) ∧
    ∀ j k c1 c, j < k → slotAt reg j = some c1 → slotAt reg k = some c →
      RegOp.unsubscribeOp k ∈ beh c1 →
      (∀ c2, RegOp.unsubscribeOp j ∉ beh c2) →
      (∀ i, slotAt reg i = some c → i = k) →
      c ∉ (notify beh reg).2 := by
  refine ⟨notifyAux_unsub_final beh hbeh reg.length 0 reg, ?_, ?_, ?_⟩
  · have h := notifyAux_unsub_sublist beh hbeh reg.length 0 reg
    rwa [List.drop_zero] at h
  · intro k c hkc hearlier
    have hlt : k < reg.length := lt_length_of_slotAt_eq_some reg k c hkc
    exact notifyAux_unsub_mem_strong beh hbeh k c reg.length 0 reg
      (Nat.zero_le k) (by omega) hkc
      (fun j c1 _ hj2 hsl => hearlier j c1 hj2 hsl)
  · intro j k c1 c hjk hslotj hslotk hclear hprotect huniq
    have hlt : k < reg.length := lt_length_of_slotAt_eq_some reg k c hslotk
    exact notifyAux_unsub_skipped beh hbeh j k c1 c hjk hclear hprotect
      reg.length 0 reg (Nat.zero_le j) (by omega) hslotj huniq

/-- Witness for C5: listener 0 unsubscribes slot 1 mid-pass over three
occupied slots; in particular the fourth conjunct applies concretely with
`j = 0`, `k = 1`: listener 1's slot is cleared before the pass reaches it
and listener 1 is not invoked. -/
theorem C5_reentrant_unsubscribe_safe_witness :
    onlyUnsubscribes behUnsub ∧
    (((notify behUnsub [some 0, some 1, some 2]).1.length
        = ([some 0, some 1, some 2] : List (Option ℕ)).length ∧
      ∀ j, slotAt (notify behUnsub [some 0, some 1, some 2]).1 j
          = slotAt ([some 0, some 1, some 2] : List (Option ℕ)) j ∨
        slotAt (notify behUnsub [some 0, some 1, some 2]).1 j = none) ∧
    List.Sublist (notify behUnsub [some 0, some 1, some 2]).2
      (([some 0, some 1, some 2] : List (Option ℕ)).filterMap id) ∧
    (∀ k c, slotAt ([some 0, some 1, some 2] : List (Option ℕ)) k = some c →
      (∀ j c1, j < k →
        slotAt ([some 0, some 1, some 2] : List (Option ℕ)) j = some c1 →
        RegOp.unsubscribeOp k ∉ behUnsub c1) →
      c ∈ (notify behUnsub [some 0, some 1, some 2]).2) ∧
    ∀ j k c1 c, j < k →
      slotAt ([some 0, some 1, some 2] : List (Option ℕ)) j = some c1 →
      slotAt ([some 0, some 1, some 2] : List (Option ℕ)) k = some c →
      RegOp.unsubscribeOp k ∈ behUnsub c1 →
      (∀ c2, RegOp.unsubscribeOp j ∉ behUnsub c2) →
      (∀ i, slotAt ([some 0, some 1, some 2] : List (Option ℕ)) i = some c →
        i = k) →
      c ∉ (notify behUnsub [some 0, some 1, some 2]).2) :=
  ⟨behUnsub_onlyUnsubscribes,
    C5_reentrant_unsubscribe_safe behUnsub [some 0, some 1, some 2]
      behUnsub_onlyUnsubscribes⟩

/-- C6 counterexample: the claim says a listener subscribing during a
pass is never invoked in that same pass, even when it fills an earlier
empty slot.  On the code it is: over the registry `[some 0, none]`,
listener 0 subscribes listener 1 into the empty slot 1, which the
`forEach` pass then reaches and invokes — the log is `[0, 1]` although
listener 1 occupied no slot when notification began. -/
theorem C6_notification_order_counterexample :
    (notify behSubHole [some 0, none]).2 = [0, 1] ∧
    (1 : ℕ) ∉ ([some 0, none] : List (Option ℕ)).filterMap id := by
  decide

/-- C6 amended: over a registry with no empty slot, callbacks that only
subscribe can never have a new listener invoked in the same pass (every
subscription appends past the captured range), and the invoked listeners
are exactly the initial occupants in slot-index order.  (A listener that
fills an empty slot at an index the pass has not yet reached IS invoked in
that same pass, as the counterexample shows.) -/
theorem C6_notification_order_amended {κ : Type} (beh : κ → List (RegOp κ))
    (reg : List (Option κ)) (hfull : ∀ s ∈ reg, s ≠ none)
    (hbeh : onlySubscribes beh) :
    (notify beh reg).2 = reg.filterMap id :=
  notify_subs_full beh hbeh reg hfull

/-- Witness for C6 amended: listener 0 subscribes listener 7 mid-pass over
a hole-free registry; only the two initial occupants are invoked. -/
theorem C6_notification_order_amended_witness :
    (∀ s ∈ ([some 0, some 1] : List (Option ℕ)), s ≠ none) ∧
    onlySubscribes behSubFull ∧
    (notify behSubFull [some 0, some 1]).2
      = ([some 0, some 1] : List (Option ℕ)).filterMap id :=
  ⟨by decide, behSubFull_onlySubscribes,
    C6_notification_order_amended behSubFull [some 0, some 1] (by decide)
      behSubFull_onlySubscribes⟩

/-- C7: for an update function whose progress output is non-decreasing in
elapsed time and a nonnegative step, the notified progress values of a run
are monotonically non-decreasing across successive accepted ticks; and
every accepted tick advances elapsedTime by exactly `interval`. -/
theorem C7_progress_monotone {σ κ : Type} (beh : κ → List (RegOp κ))
    (init : σ) (clocks : List ℚ) (s : AnimationIterator σ κ)
    (hmono : ∀ t1 t2 : ℚ, t1 ≤ t2 →
      (s.func init t1).progress ≤ (s.func init t2).progress)
    (hd : 0 ≤ s.interval) :
    List.Chain' (· ≤ ·)
      ((runAux beh init clocks s).2.1.map FuncResult.progress) ∧
    ∀ (s1 : AnimationIterator σ κ) (now : ℚ) (r : FuncResult),
      notifiedResult (s1.next beh init now).2 = some r →
      (s1.next beh init now).1.time = s1.time + s1.interval := by
  constructor
  · exact (runAux_progress_mono beh init s.func s.interval hmono hd clocks s
      rfl rfl).1
  · intro s1 now r h
    by_cases hc : now - s1.lastTick ≥ 1000 / s1.rate
    · by_cases hp :
          (clampProgress (s1.func init (s1.time + s1.interval))).progress ≥ 1
      · rw [next_completed beh init now s1 hc hp]
        rfl
      · rw [next_continued beh init now s1 hc hp]
        rfl
    · rw [next_rejected beh init now s1 (not_le.mp hc)] at h
      exact absurd h Option.noConfusion

/-- Witness for C7: the default update function (progress = elapsed time)
is monotone, the sample step is nonnegative, and the sample run's notified
progress chain is non-decreasing. -/
theorem C7_progress_monotone_witness :
    (∀ t1 t2 : ℚ, t1 ≤ t2 →
      (sampleIterator.func () t1).progress
        ≤ (sampleIterator.func () t2).progress) ∧
    (0 : ℚ) ≤ sampleIterator.interval ∧
    (List.Chain' (· ≤ ·)
      ((runAux noBehavior () [100, 200] sampleIterator).2.1.map
        FuncResult.progress) ∧
    ∀ (s1 : AnimationIterator Unit ℕ) (now : ℚ) (r : FuncResult),
      notifiedResult (s1.next noBehavior () now).2 = some r →
      (s1.next noBehavior () now).1.time = s1.time + s1.interval) :=
  ⟨fun t1 t2 h => h, by decide,
    C7_progress_monotone noBehavior () [100, 200] sampleIterator
      (fun t1 t2 h => h) (by decide)⟩

/-- C8: `resetAll()` leaves the iterator in exactly the state a freshly
constructed instance with the same configuration arguments has (so
subsequent `subscribe` + `start` behave identically); `reset` reloads
`interval`, `rate` and the update function from the construction-time
arguments with defaults for omitted fields, zeroes `progress`,
`elapsedTime` and `lastTickTimestamp`, and leaves the listener registry
untouched; `resetAll` additionally clears it. -/
theorem C8_resetAll_equals_fresh {σ κ : Type} (args : AnimationIteratorArgs σ)
    (s : AnimationIterator σ κ) :
    s.resetAll args = AnimationIterator.construct args ∧
    (s.reset args).listeners = s.listeners ∧
    (s.reset args).interval
      = conditionalDefault args.interval DEFAULT_STEP_INTERVAL ∧
    (s.reset args).rate = conditionalDefault args.rate DEFAULT_FRAME_RATE ∧
    (s.reset args).func =
      conditionalDefault (args.func.orElse fun _ => args.function)
        DEFAULT_FUNC ∧
    (s.reset args).progress = 0 ∧
    (s.reset args).time = 0 ∧
    (s.reset args).lastTick = 0 ∧
    (s.resetAll args).listeners = [] :=
  ⟨rfl, rfl, rfl, rfl, rfl, rfl, rfl, rfl, rfl⟩

/-- C9: the color parser on the spec's examples.  The first three-channel
example and the hex example parse as specified and an unrecognized string
raises the format error, but the `rgba(...)` example THROWS: the source's
first regex spells its literal prefix `rgb` followed immediately by
`\s?\(`, so the letter `a` of `rgba(` can never be matched and no
`rgba(...)` string matches any of the three formats.  The alpha branch is
reachable only through the undocumented four-component `rgb(r,g,b,a)`
spelling, confirmed by the last conjunct. -/
theorem C9_extractColorAsRgb_examples :
    extractColorAsRgb "rgb(10, 20, 30)" =
      Except.ok ⟨JsNum.int 10, JsNum.int 20, JsNum.int 30, none⟩ ∧
    extractColorAsRgb "rgba(10,20,30,5)"
      = Except.error colorFormatErrorMessage ∧
    extractColorAsRgb "#ff0000" =
      Except.ok ⟨JsNum.int 255, JsNum.int 0, JsNum.int 0, none⟩ ∧
    extractColorAsRgb "notacolor" = Except.error colorFormatErrorMessage ∧
    extractColorAsRgb "rgb(10,20,30,5)" =
      Except.ok ⟨JsNum.int 10, JsNum.int 20, JsNum.int 30, some (JsNum.int 5)⟩ :=
  ⟨rfl, rfl, rfl, rfl, rfl⟩

/-- C10: after construction (and hence after every `reset`),
`lastTickTimestamp` is 0, so with a positive rate any wall-clock reading
of at least `1000/rate` ms (every realistic epoch timestamp) makes the
first tick accepted immediately: it is not rejected, it advances
elapsedTime to `interval`, it invokes the update function at that time
and notifies via the pass over the listener registry. -/
theorem C10_first_tick_accepted {σ κ : Type} (beh : κ → List (RegOp κ))
    (init : σ) (now : ℚ) (args : AnimationIteratorArgs σ)
    (hrate : 0 < conditionalDefault args.rate DEFAULT_FRAME_RATE)
    (hnow : 1000 / conditionalDefault args.rate DEFAULT_FRAME_RATE ≤ now) :
    (AnimationIterator.construct (κ := κ) args).lastTick = 0 ∧
    ((AnimationIterator.construct (κ := κ) args).next beh init now).2.isRejected
      = false ∧
    ((AnimationIterator.construct (κ := κ) args).next beh init now).1.time
      = conditionalDefault args.interval DEFAULT_STEP_INTERVAL ∧
    notifiedResult
        ((AnimationIterator.construct (κ := κ) args).next beh init now).2
      = some (clampProgress ((AnimationIterator.construct (κ := κ) args).func
          init (conditionalDefault args.interval DEFAULT_STEP_INTERVAL))) ∧
    invokedListeners
        ((AnimationIterator.construct (κ := κ) args).next beh init now).2
      = some (notify beh
          (AnimationIterator.construct (κ := κ) args).listeners).2 := by
  have hcond : now - (AnimationIterator.construct (κ := κ) args).lastTick
      ≥ 1000 / (AnimationIterator.construct (κ := κ) args).rate := by
    show now - (0 : ℚ)
      ≥ 1000 / conditionalDefault args.rate DEFAULT_FRAME_RATE
    rw [sub_zero]
    exact hnow
  have htime : (AnimationIterator.construct (κ := κ) args).time
        + (AnimationIterator.construct (κ := κ) args).interval
      = conditionalDefault args.interval DEFAULT_STEP_INTERVAL := by
    show (0 : ℚ) + conditionalDefault args.interval DEFAULT_STEP_INTERVAL = _
    rw [zero_add]
  obtain ⟨h1, h2, h3, h4⟩ := next_accepted_facts beh init now
    (AnimationIterator.construct (κ := κ) args) hcond
  rw [htime] at h2 h3
  exact ⟨rfl, h1, h2, h3, h4⟩

/-- Witness for C10: the default configuration at wall-clock 1000 ms. -/
theorem C10_first_tick_accepted_witness :
    (0 : ℚ) < conditionalDefault emptyArgs.rate DEFAULT_FRAME_RATE ∧
    1000 / conditionalDefault emptyArgs.rate DEFAULT_FRAME_RATE
      ≤ (1000 : ℚ) ∧
    ((AnimationIterator.construct (κ := ℕ) emptyArgs).lastTick = 0 ∧
    ((AnimationIterator.construct (κ := ℕ) emptyArgs).next noBehavior ()
        1000).2.isRejected = false ∧
    ((AnimationIterator.construct (κ := ℕ) emptyArgs).next noBehavior ()
        1000).1.time
      = conditionalDefault emptyArgs.interval DEFAULT_STEP_INTERVAL ∧
    notifiedResult ((AnimationIterator.construct (κ := ℕ) emptyArgs).next
        noBehavior () 1000).2
      = some (clampProgress
          ((AnimationIterator.construct (κ := ℕ) emptyArgs).func ()
            (conditionalDefault emptyArgs.interval DEFAULT_STEP_INTERVAL))) ∧
    invokedListeners ((AnimationIterator.construct (κ := ℕ) emptyArgs).next
        noBehavior () 1000).2
      = some (notify noBehavior
          (AnimationIterator.construct (κ := ℕ) emptyArgs).listeners).2) :=
  ⟨by decide, by decide,
    C10_first_tick_accepted noBehavior () 1000 emptyArgs (by decide)
      (by decide)⟩
